import Mathlib

/-!
Shallow embedding of `src/odoo_addons_analyzer/code.py`, a static analyzer
that extracts Odoo data-model metadata from parsed Python modules.
Python AST nodes are modelled by inductive types, Python exceptions by an
explicit error monad (`Except PyExc`), and Python dicts by
insertion-ordered association lists.
-/

/-- Python exceptions the analyzed code can raise at runtime. -/
inductive PyExc
  | attributeError
  | indexError
  | unboundLocalError
  | assertionError
deriving DecidableEq

/-- Payloads of `ast.Constant` nodes that matter to the analyzer. -/
inductive Const
  | str (s : String)
  | int (n : Int)
  | bool (b : Bool)
  | none
deriving DecidableEq

/-- Python expression nodes (the subset of `ast` shapes the analyzer inspects).
`dict` keeps the parallel `keys`/`values` lists of `ast.Dict`. -/
inductive Expr
  | constant (val : Const)
  | name (id : String)
  | attribute (value : Expr) (attr : String)
  | call (func : Expr) (args : List Expr) (keywords : List (String × Expr))
  | dict (keys : List Expr) (values : List Expr)
  | list (elts : List Expr)
  | tuple (elts : List Expr)
  | lambda
  | joinedStr
  | binOp (left : Expr) (right : Expr)
  | subscript (value : Expr) (index : Expr)

/-- Class-body statements: assignments, function definitions (only the pieces
`code.py` reads: name, positional argument names, default expressions and the
decorator list), and anything else. -/
inductive Stmt
  | assign (targets : List Expr) (value : Expr)
  | functionDef (name : String) (args : List String) (defaults : List Expr)
      (decoratorList : List Expr)
  | other

/-- An `ast.ClassDef`: its name, base expressions and body. -/
structure ClassDef where
  name : String
  bases : List Expr
  body : List Stmt

/-- A top-level module statement: a class definition or anything else. -/
inductive TopStmt
  | classDef (c : ClassDef)
  | other

/-- Values `OdooModel._get_attr_value` can produce: a constant (Python
`None` included, which also stands for the implicit fall-through return)
or a dict of constants. -/
inductive PyVal
  | const (c : Const)
  | dict (entries : List (Const × Const))

/-- Python truthiness of a constant. -/
def Const.truthy : Const → Bool
  | .str s => !s.isEmpty
  | .int n => n != 0
  | .bool b => b
  | .none => false

/-- Python truthiness of an attribute value (a dict is truthy iff non-empty). -/
def PyVal.truthy : PyVal → Bool
  | .const c => c.truthy
  | .dict entries => !entries.isEmpty

/-- Whether the value is Python `None` (`x is None`). -/
def PyVal.isNone : PyVal → Bool
  | .const .none => true
  | _ => false

/-- Python `a or b` on attribute values. -/
def pyOr (a b : PyVal) : PyVal := if a.truthy then a else b

/-- `d[k] = v` on an insertion-ordered dict: update in place if the key
exists, else append. -/
def dictSet {α : Type} (m : List (String × α)) (k : String) (v : α) :
    List (String × α) :=
  if m.any (fun p => p.1 == k) then
    m.map (fun p => if p.1 == k then (k, v) else p)
  else m ++ [(k, v)]

/-- `d.get(k)` on an insertion-ordered dict. -/
def dictGet {α : Type} (m : List (String × α)) (k : String) : Option α :=
  (m.find? (fun p => p.1 == k)).map (fun p => p.2)

/-- `d[k] = v` for the `Const`-keyed dict built for `_inherits`. -/
def cdictSet (m : List (Const × Const)) (k v : Const) :
    List (Const × Const) :=
  if m.any (fun p => p.1 = k) then
    m.map (fun p => if p.1 = k then (k, v) else p)
  else m ++ [(k, v)]

/-- `BASE_CLASSES` from `code.py`. -/
def BASE_CLASSES : List String :=
  ["BaseModel", "AbstractModel", "Model", "TransientModel"]

/-- `FIELD_TYPES` from `code.py`. -/
def FIELD_TYPES : List String :=
  ["Boolean", "Char", "Integer", "Float", "Date", "Datetime",
   "Selection", "Many2one", "One2many", "Many2many"]

/-- `target.id`: only `ast.Name` nodes have an `id` attribute; any other
target raises `AttributeError`. -/
def targetId : Expr → Except PyExc String
  | .name id => .ok id
  | _ => .error .attributeError

/-- The dict comprehension inside `_get_attr_value`: keep the entries of an
`ast.Dict` whose key and value are both constants. -/
def buildDictLiteral (keys values : List Expr) : List (Const × Const) :=
  (keys.zip values).foldl
    (fun acc kv =>
      match kv.1, kv.2 with
      | .constant ck, .constant cv => cdictSet acc ck cv
      | _, _ => acc)
    []

/-- What the body of `_get_attr_value` does once a target matches the
attribute name: a constant value is returned, a dict literal is returned
when its filtered entries are non-empty, and every other shape falls
through (`none`) so the scan continues. -/
def matchedValue (value : Expr) : Option PyVal :=
  match value with
  | .constant c => some (.const c)
  | .dict keys vals =>
      let entries := buildDictLiteral keys vals
      if entries.isEmpty then Option.none else some (.dict entries)
  | _ => Option.none

/-- The inner `for target in elt.targets` loop of `_get_attr_value`:
returns `some v` when the loop body executes a `return`, `none` when the
loop finishes without returning, and an exception when `target.id` raises. -/
def matchTargets (attrName : String) (value : Expr) :
    List Expr → Except PyExc (Option PyVal)
  | [] => .ok Option.none
  | t :: rest =>
      match targetId t with
      | .error e => .error e
      | .ok id =>
          if id = attrName then
            match matchedValue value with
            | some v => .ok (some v)
            | Option.none => matchTargets attrName value rest
          else matchTargets attrName value rest

/-- The outer statement loop of `_get_attr_value`; falling off the end of
the function returns Python `None`. -/
def getAttrAux (attrName : String) : List Stmt → Except PyExc PyVal
  | [] => .ok (.const .none)
  | s :: rest =>
      match s with
      | .assign targets value =>
          if targets.isEmpty then getAttrAux attrName rest
          else
            match matchTargets attrName value targets with
            | .error e => .error e
            | .ok (some v) => .ok v
            | .ok Option.none => getAttrAux attrName rest
      | _ => getAttrAux attrName rest

/-- `OdooModel._get_attr_value`. -/
def OdooModel.getAttrValue (c : ClassDef) (attrName : String) :
    Except PyExc PyVal :=
  getAttrAux attrName c.body

/-- `OdooModel.is_model`: `bool(name or inherit)`. -/
def OdooModel.is_model (c : ClassDef) : Except PyExc Bool := do
  let name ← OdooModel.getAttrValue c ("_name")
  let inherit ← OdooModel.getAttrValue c ("_inherit")
  .ok (pyOr name inherit).truthy

/-- The base-name list `is_base_class` builds: a bare name contributes its
identifier, an attribute access contributes its final component, anything
else is skipped. -/
def classBases (bases : List Expr) : List String :=
  bases.foldl
    (fun acc b =>
      match b with
      | .name id => acc ++ [id]
      | .attribute _ attr => acc ++ [attr]
      | _ => acc)
    []

/-- `OdooModel.is_base_class`. -/
def OdooModel.is_base_class (c : ClassDef) : Bool :=
  let bases := classBases c.bases
  if c.name == "BaseModel" && bases.isEmpty then true
  else if BASE_CLASSES.contains c.name
      && bases.any (fun b => BASE_CLASSES.contains b) then true
  else false

/-- `OdooModel._get_type`: the simple name of the first base that is an
attribute access or a bare name. -/
def OdooModel.getType : List Expr → Option String
  | [] => Option.none
  | b :: rest =>
      match b with
      | .attribute _ attr => some attr
      | .name id => some id
      | _ => OdooModel.getType rest

/-- Python `repr` of the constants the renderer meets. A string renders
with surrounding single quotes (special characters are not used by any
analyzed fragment in this development). -/
def pyRepr : Const → String
  | .str s => "\x27" ++ s ++ "\x27"
  | .int n => toString n
  | .bool b => if b then ("True") else ("False")
  | .none => "None"

/-- `ast_to_string` from `code.py`. The fall-through branch reads
`elt.value`: on `ast.Attribute`/`ast.Subscript` that is another AST node
and `repr` yields an object description (modelled by a fixed placeholder;
no theorem below depends on those branches), while `ast.Dict`,
`ast.JoinedStr` and `ast.BinOp` have no `value` attribute and raise
`AttributeError`. -/
def ast_to_string : Expr → Except PyExc String
  | .name id => .ok id
  | .call _ _ _ => .ok ("<Call()>")
  | .lambda => .ok ("<Call()>")
  | .list _ => .ok ("<List()>")
  | .tuple _ => .ok ("<Tuple()>")
  | .constant c => .ok (pyRepr c)
  | .attribute _ _ => .ok ("<ast.Attribute object>")
  | .subscript _ _ => .ok ("<ast.Subscript object>")
  | .dict _ _ => .error .attributeError
  | .joinedStr => .error .attributeError
  | .binOp _ _ => .error .attributeError

/-- Serialized JSON-like values appearing in the `to_dict` outputs. -/
inductive JVal
  | py (v : PyVal)
  | strs (l : List String)
  | obj (entries : List (String × JVal))

/-- Serialize a plain Python string. -/
def jstr (s : String) : JVal := .py (.const (.str s))

/-- Serialize an optional Python string (`None` when absent). -/
def jopt : Option String → JVal
  | some s => jstr s
  | Option.none => .py (.const .none)

/-- The tag `OdooField._extract_type` resolves from the call target before
the membership test: the attribute name of an attribute access, the
identifier of a bare name, `None` otherwise. -/
def funcTag : Expr → Option String
  | .attribute _ attr => some attr
  | .name id => some id
  | _ => Option.none

/-- `OdooField._extract_type` restricted to the call target: the resolved
tag is returned only when it belongs to `FIELD_TYPES`. -/
def OdooField.extractTypeOfCall (func : Expr) : Option String :=
  match funcTag func with
  | some t => if FIELD_TYPES.contains t then some t else Option.none
  | Option.none => Option.none

/-- `OdooField._extract_type` on a statement; reading `ast_cls.value.func`
raises `AttributeError` when the assigned value is not a call. -/
def OdooField.extractType (s : Stmt) : Except PyExc (Option String) :=
  match s with
  | .assign _ (.call func _ _) => .ok (OdooField.extractTypeOfCall func)
  | _ => .error .attributeError

/-- `OdooField.is_field`. -/
def OdooField.is_field (s : Stmt) : Bool :=
  match s with
  | .assign targets value =>
      if targets.isEmpty then false
      else
        match value with
        | .call func _ _ => (OdooField.extractTypeOfCall func).isSome
        | _ => false
  | _ => false

/-- An extracted Odoo field. -/
structure OdooField where
  name : String
  type_ : Option String

/-- `OdooField.__init__`: asserts `is_field`, then reads
`ast_cls.targets[0].id` (which can raise) and extracts the type. -/
def OdooField.make (s : Stmt) : Except PyExc OdooField :=
  if OdooField.is_field s then
    match s with
    | .assign targets _ =>
        match targets.head? with
        | some t => do
            let n ← targetId t
            let ty ← OdooField.extractType s
            .ok ⟨n, ty⟩
        | Option.none => .error .indexError
    | _ => .error .assertionError
  else .error .assertionError

/-- `OdooField.to_dict`. -/
def OdooField.to_dict (f : OdooField) : List (String × JVal) :=
  [("name", jstr f.name), ("type", jopt f.type_)]

/-- Whether the second list is a prefix of the first, by characters. -/
def listIsPrefixOf : List Char → List Char → Bool
  | _, [] => true
  | [], _ :: _ => false
  | c :: cs, d :: ds => c == d && listIsPrefixOf cs ds

/-- Python `s.startswith(pre)`. -/
def strStartsWith (s pre : String) : Bool :=
  listIsPrefixOf s.data pre.data

/-- Python `s.endswith(suf)`. -/
def strEndsWith (s suf : String) : Bool :=
  listIsPrefixOf s.data.reverse suf.data.reverse

/-- `OdooMethod.is_method`: a function definition whose name does not start
with a double underscore (the Python code returns `None`, which is falsy,
for every other statement). -/
def OdooMethod.is_method (s : Stmt) : Bool :=
  match s with
  | .functionDef name _ _ _ => !(strStartsWith name ("__"))
  | _ => false

/-- `OdooMethod._extract_decorator_signature`: render the positional and
then the keyword arguments of a decorator call. -/
def extractDecoratorArgs (args : List Expr) (keywords : List (String × Expr)) :
    Except PyExc (List String) := do
  let pos ← args.mapM ast_to_string
  let kw ← keywords.mapM
    (fun p => do
      let v ← ast_to_string p.2
      pure (p.1 ++ "=" ++ v))
  .ok (pos ++ kw)

/-- One iteration of the `OdooMethod._extract_decorators` loop: `some s`
when the decorator appends a rendering, `none` when its shape matches no
branch and it is silently skipped.  In the call branch the Python code
binds `deco` (raising `AttributeError` on `dec.func.value.id` when the
call target is an attribute access whose value is not a bare name), then
renders the arguments, then reads `deco` (raising `UnboundLocalError` when
the call target matched neither shape). -/
def extractDecorator : Expr → Except PyExc (Option String)
  | .name id => .ok (some id)
  | .attribute value attr =>
      match value with
      | .name vid => .ok (some (vid ++ "." ++ attr))
      | _ => .error .attributeError
  | .call func args keywords => do
      let deco : Option String ←
        match func with
        | .name id => .ok (some id)
        | .attribute value attr =>
            match value with
            | .name vid => .ok (some (vid ++ "." ++ attr))
            | _ => .error .attributeError
        | _ => .ok Option.none
      let rendered ← extractDecoratorArgs args keywords
      match deco with
      | some d => .ok (some (d ++ "(" ++ String.intercalate (", ") rendered ++ ")"))
      | Option.none => .error .unboundLocalError
  | _ => .ok Option.none

/-- `OdooMethod._extract_decorators`: process the decorator list in order,
keeping the renderings of the recognized shapes. -/
def OdooMethod.extractDecorators : List Expr → Except PyExc (List String)
  | [] => .ok []
  | d :: rest => do
      let r ← extractDecorator d
      let others ← OdooMethod.extractDecorators rest
      match r with
      | some s => .ok (s :: others)
      | Option.none => .ok others

/-- Render the default expressions of a function definition, in order. -/
def renderDefaults : List Expr → Except PyExc (List String)
  | [] => .ok []
  | d :: rest => do
      let s ← ast_to_string d
      let others ← renderDefaults rest
      .ok (s :: others)

/-- The alignment loop of `_extract_method_signature`: after
`defaults.reverse()`, iteration `i` rewrites `signature[-i-1]` to
`"arg=default"`; a negative index (more defaults than arguments) raises
`IndexError` in Python. -/
def alignLoop (sig : List String) (i : Nat) :
    List String → Except PyExc (List String)
  | [] => .ok sig
  | d :: ds =>
      if i < sig.length then
        let idx := sig.length - 1 - i
        let a := sig.getD idx ("")
        alignLoop (sig.set idx (a ++ "=" ++ d)) (i + 1) ds
      else .error .indexError

/-- `OdooMethod._extract_method_signature` on the argument names and
default expressions (the only pieces of `ast_cls.args` the code reads). -/
def OdooMethod.extractMethodSignature (args : List String)
    (defaults : List Expr) : Except PyExc (List String) := do
  let rendered ← renderDefaults defaults
  alignLoop args 0 rendered.reverse

/-- An extracted Odoo method. -/
structure OdooMethod where
  name : String
  decorators : List String
  signature : List String

/-- `OdooMethod.__init__`: asserts `is_method`, then extracts the name,
the decorators and the signature. -/
def OdooMethod.make (s : Stmt) : Except PyExc OdooMethod :=
  if OdooMethod.is_method s then
    match s with
    | .functionDef name args defaults decoratorList => do
        let decs ← OdooMethod.extractDecorators decoratorList
        let sig ← OdooMethod.extractMethodSignature args defaults
        .ok ⟨name, decs, sig⟩
    | _ => .error .assertionError
  else .error .assertionError

/-- `OdooMethod.to_dict`: the decorators entry appears only when the
decorator tuple is non-empty. -/
def OdooMethod.to_dict (m : OdooMethod) : List (String × JVal) :=
  let data := [("name", jstr m.name), ("signature", JVal.strs m.signature)]
  if m.decorators.isEmpty then data
  else dictSet data ("decorators") (.strs m.decorators)

/-- An extracted Odoo model record. -/
structure OdooModel where
  type_ : Option String
  name : PyVal
  inherit : PyVal
  inherits : PyVal
  auto : PyVal
  order : PyVal
  fields : List (String × JVal)
  methods : List (String × JVal)

/-- `OdooModel._get_fields`: collect `field.to_dict()` keyed by field name
for every body statement satisfying `is_field`. -/
def OdooModel.getFieldsAux (acc : List (String × JVal)) :
    List Stmt → Except PyExc (List (String × JVal))
  | [] => .ok acc
  | s :: rest =>
      if OdooField.is_field s then do
        let f ← OdooField.make s
        OdooModel.getFieldsAux (dictSet acc f.name (.obj f.to_dict)) rest
      else OdooModel.getFieldsAux acc rest

/-- `OdooModel._get_fields`. -/
def OdooModel.getFields (c : ClassDef) : Except PyExc (List (String × JVal)) :=
  OdooModel.getFieldsAux [] c.body

/-- `OdooModel._get_methods`: collect `method.to_dict()` keyed by method
name for every body statement satisfying `is_method`. -/
def OdooModel.getMethodsAux (acc : List (String × JVal)) :
    List Stmt → Except PyExc (List (String × JVal))
  | [] => .ok acc
  | s :: rest =>
      if OdooMethod.is_method s then do
        let m ← OdooMethod.make s
        OdooModel.getMethodsAux (dictSet acc m.name (.obj m.to_dict)) rest
      else OdooModel.getMethodsAux acc rest

/-- `OdooModel._get_methods`. -/
def OdooModel.getMethods (c : ClassDef) : Except PyExc (List (String × JVal)) :=
  OdooModel.getMethodsAux [] c.body

/-- `OdooModel.__init__`: the assertion evaluates
`is_model(ast_cls) or is_base_class(ast_cls)` (the first call can raise),
then every attribute is extracted in the source order. -/
def OdooModel.make (c : ClassDef) : Except PyExc OdooModel := do
  let m ← OdooModel.is_model c
  if m || OdooModel.is_base_class c then do
    let name ← OdooModel.getAttrValue c ("_name")
    let inherit ← OdooModel.getAttrValue c ("_inherit")
    let inherits ← OdooModel.getAttrValue c ("_inherits")
    let auto ← OdooModel.getAttrValue c ("_auto")
    let order ← OdooModel.getAttrValue c ("_order")
    let fields ← OdooModel.getFields c
    let methods ← OdooModel.getMethods c
    .ok ⟨OdooModel.getType c.bases, name, inherit, inherits, auto, order,
      fields, methods⟩
  else .error .assertionError

/-- `OdooModel.to_dict`: `type` always; `auto` when not `None`; `name`,
`inherit`, `inherits`, `fields` and `methods` when truthy.  The extracted
`order` attribute is not serialized by the source. -/
def OdooModel.to_dict (m : OdooModel) : List (String × JVal) :=
  let data : List (String × JVal) := [("type", jopt m.type_)]
  let data := if m.auto.isNone then data else dictSet data ("auto") (.py m.auto)
  let data := if m.name.truthy then dictSet data ("name") (.py m.name) else data
  let data :=
    if m.inherit.truthy then dictSet data ("inherit") (.py m.inherit) else data
  let data :=
    if m.inherits.truthy then dictSet data ("inherits") (.py m.inherits)
    else data
  let data :=
    if !m.fields.isEmpty then dictSet data ("fields") (.obj m.fields) else data
  let data :=
    if !m.methods.isEmpty then dictSet data ("methods") (.obj m.methods)
    else data
  data

/-- One iteration of the `PyFile._get_models` loop over the module body:
a class satisfying `is_model` is stored under `"{path}:{name}"`, otherwise
a class satisfying `is_base_class` is stored under its bare name. -/
def processTop (path : String) (models : List (String × JVal)) :
    TopStmt → Except PyExc (List (String × JVal))
  | .classDef c => do
      let m ← OdooModel.is_model c
      if m then do
        let model ← OdooModel.make c
        .ok (dictSet models (path ++ ":" ++ c.name) (.obj model.to_dict))
      else if OdooModel.is_base_class c then do
        let model ← OdooModel.make c
        .ok (dictSet models c.name (.obj model.to_dict))
      else .ok models
  | .other => .ok models

/-- `PyFile._get_models` over a parsed module body. -/
def PyFile.getModels (path : String) (body : List TopStmt) :
    Except PyExc (List (String × JVal)) :=
  body.foldlM (processTop path) []

/-- Whether every assignment target in a class body is a bare name (the
shape on which `target.id` cannot raise). -/
def allNameTargets (body : List Stmt) : Bool :=
  body.all
    (fun s =>
      match s with
      | .assign targets _ =>
          targets.all
            (fun t =>
              match t with
              | .name _ => true
              | _ => false)
      | _ => true)

/-- The two right-hand-side shapes `_get_attr_value` recognizes: a constant
or a dict literal. -/
def recognizedLiteral : Expr → Bool
  | .constant _ => true
  | .dict _ _ => true
  | _ => false

/-- Whether an assignment statement has a target named `attrName`. -/
def assignsTo (attrName : String) (s : Stmt) : Bool :=
  match s with
  | .assign targets _ =>
      targets.any
        (fun t =>
          match t with
          | .name id => id == attrName
          | _ => false)
  | _ => false

/-- Whether no assignment in the body both targets `attrName` and carries a
recognized literal value. -/
def noLiteralAssignTo (attrName : String) (body : List Stmt) : Bool :=
  body.all
    (fun s =>
      match s with
      | .assign _ value => !(assignsTo attrName s) || !(recognizedLiteral value)
      | _ => true)

/-- Decorator shapes that match none of the branches of
`_extract_decorators` (neither a bare name, an attribute access, nor a
call). -/
def unsupportedDecoratorShape : Expr → Bool
  | .name _ => false
  | .attribute _ _ => false
  | .call _ _ _ => false
  | _ => true

/-- A class body whose sole statement is a tuple-unpacking assignment
(`a, b = 1, 2`), used to exhibit the partiality of the attribute reader. -/
def tupleTargetClass : ClassDef :=
  ⟨"Foo", [],
   [.assign [.tuple [.name ("a"), .name ("b")]]
     (.tuple [.constant (.int 1), .constant (.int 2)])]⟩

/-- A class literally named `BaseModel`, with no bases, whose body assigns
`_name = "x"`. -/
def namedBaseModelClass : ClassDef :=
  ⟨"BaseModel", [],
   [.assign [.name ("_name")] (.constant (.str ("x")))]⟩

/-- A data-model class assigning a non-empty `_order` string. -/
def orderedModelClass : ClassDef :=
  ⟨"M", [.attribute (.name ("models")) ("Model")],
   [.assign [.name ("_name")] (.constant (.str ("res.partner"))),
    .assign [.name ("_order")] (.constant (.str ("name asc")))]⟩

/-- A class whose sole body statement is a function definition with a
double leading underscore and no trailing double underscore. -/
def leadingDunderClass : ClassDef :=
  ⟨"M", [], [.functionDef ("__compute_total") [("self")] [] []]⟩

/-- A minimal data-model class used as a witness input. -/
def partnerClass : ClassDef :=
  ⟨"Partner", [.attribute (.name ("models")) ("Model")],
   [.assign [.name ("_name")] (.constant (.str ("res.partner")))]⟩

/-- The model record extracted from `partnerClass`. -/
def partnerModel : OdooModel :=
  ⟨some ("Model"), .const (.str ("res.partner")), .const .none, .const .none,
   .const .none, .const .none, [], []⟩

/-- The model record extracted from a bare `class BaseModel:` definition. -/
def emptyBaseModel : OdooModel :=
  ⟨Option.none, .const .none, .const .none, .const .none, .const .none,
   .const .none, [], []⟩

/-- A class with one non-private method used as a witness input. -/
def methodClass : ClassDef :=
  ⟨"M", [], [.functionDef ("_compute") [("self")] [] []]⟩

/-- A class whose `_name` assignments all carry unrecognized value shapes
(a call and an f-string). -/
def gracefulClass : ClassDef :=
  ⟨"G", [],
   [.assign [.name ("_name")] (.call (.name ("compute")) [] []),
    .assign [.name ("_name")] .joinedStr,
    .assign [.name ("x")] (.constant (.int 1))]⟩

theorem dictGet_map_replace_ne {α : Type} (m : List (String × α))
    (k k2 : String) (v : α) (h : k2 ≠ k) :
    dictGet (m.map (fun p => if p.1 == k then (k, v) else p)) k2 =
      dictGet m k2 := by
  have hkk2 : (k == k2) = false := beq_eq_false_iff_ne.mpr (fun hkk => h hkk.symm)
  induction m with
  | nil => rfl
  | cons p rest ih =>
    rw [List.map_cons]
    by_cases hp : (p.1 == k) = true
    · have hpk : p.1 = k := beq_iff_eq.mp hp
      have h2 : (p.1 == k2) = false := by rw [hpk]; exact hkk2
      rw [if_pos hp]
      simp only [dictGet, List.find?_cons, hkk2, h2] at ih ⊢
      exact ih
    · rw [if_neg hp]
      by_cases hq : (p.1 == k2) = true
      · simp only [dictGet, List.find?_cons, hq]
      · have hq' : (p.1 == k2) = false := by simpa using hq
        simp only [dictGet, List.find?_cons, hq'] at ih ⊢
        exact ih

theorem find_map_replace_self {α : Type} (m : List (String × α))
    (k : String) (v : α) (hmem : m.any (fun p => p.1 == k) = true) :
    dictGet (m.map (fun p => if p.1 == k then (k, v) else p)) k = some v := by
  induction m with
  | nil => simp at hmem
  | cons p rest ih =>
    rw [List.map_cons]
    by_cases hp : (p.1 == k) = true
    · rw [if_pos hp]
      have hself : (k == k) = true := by simp
      simp only [dictGet, List.find?_cons, hself]
      rfl
    · have hp' : (p.1 == k) = false := by simpa using hp
      have hrest : rest.any (fun p => p.1 == k) = true := by
        rw [List.any_cons, hp'] at hmem
        simpa using hmem
      rw [if_neg hp]
      simp only [dictGet, List.find?_cons, hp'] at ih ⊢
      exact ih hrest

theorem dictGet_dictSet_self {α : Type} (m : List (String × α))
    (k : String) (v : α) :
    dictGet (dictSet m k v) k = some v := by
  unfold dictSet
  by_cases hmem : m.any (fun p => p.1 == k) = true
  · rw [if_pos hmem]
    exact find_map_replace_self m k v hmem
  · rw [if_neg hmem]
    have hnone : m.find? (fun p => p.1 == k) = none := by
      rw [List.find?_eq_none]
      intro x hx hcontra
      exact hmem (List.any_eq_true.mpr ⟨x, hx, hcontra⟩)
    have hself : (k == k) = true := by simp
    simp only [dictGet, List.find?_append, hnone, List.find?_cons, hself]
    rfl

theorem dictGet_dictSet_ne {α : Type} (m : List (String × α))
    (k k2 : String) (v : α) (h : k2 ≠ k) :
    dictGet (dictSet m k v) k2 = dictGet m k2 := by
  unfold dictSet
  by_cases hmem : m.any (fun p => p.1 == k) = true
  · rw [if_pos hmem]
    exact dictGet_map_replace_ne m k k2 v h
  · rw [if_neg hmem]
    have hkk2 : (k == k2) = false :=
      beq_eq_false_iff_ne.mpr (fun hkk => h hkk.symm)
    simp only [dictGet, List.find?_append, List.find?_cons, hkk2,
      List.find?_nil, Option.or_none]

theorem dictGet_dictSet {α : Type} (m : List (String × α))
    (k k2 : String) (v : α) :
    dictGet (dictSet m k v) k2 = if k2 = k then some v else dictGet m k2 := by
  by_cases h : k2 = k
  · rw [if_pos h, h]
    exact dictGet_dictSet_self m k v
  · rw [if_neg h]
    exact dictGet_dictSet_ne m k k2 v h

/-- C1: the classifier marks a class as a data model exactly when the
attribute reader resolves `_name` or `_inherit` to a truthy (non-empty)
value; a class whose body assigns only `_inherits` (whatever the dict
expression) is not classified as a data model. -/
theorem is_model_truthiness :
    (∀ (c : ClassDef) (vn vi : PyVal),
      OdooModel.getAttrValue c ("_name") = .ok vn →
      OdooModel.getAttrValue c ("_inherit") = .ok vi →
      (OdooModel.is_model c = .ok true ↔
        (vn.truthy = true ∨ vi.truthy = true))) ∧
    (∀ (cname : String) (bases : List Expr) (keys vals : List Expr),
      OdooModel.is_model
        ⟨cname, bases, [.assign [.name ("_inherits")] (.dict keys vals)]⟩ =
        .ok false) := by
  constructor
  · intro c vn vi hn hi
    unfold OdooModel.is_model
    simp only [hn, hi]
    show Except.ok ((pyOr vn vi).truthy) = Except.ok true ↔ _
    rw [Except.ok.injEq]
    unfold pyOr
    by_cases hv : vn.truthy = true
    · simp [hv]
    · have hv' : vn.truthy = false := by simpa using hv
      simp [hv']
  · intro cname bases keys vals
    rfl

theorem is_model_truthiness_witness :
    OdooModel.is_model partnerClass = .ok true :=
  (is_model_truthiness.1 partnerClass (.const (.str ("res.partner")))
    (.const .none) rfl rfl).mpr (Or.inl rfl)

/-- C9: on a class whose body holds a tuple-unpacking assignment the
attribute reader reads `target.id` unconditionally, so the reader, the
classifier and the file scanner all raise `AttributeError` instead of
skipping the statement. -/
theorem attr_reader_partial_on_tuple_target :
    OdooModel.getAttrValue tupleTargetClass ("_name") =
        .error .attributeError ∧
    OdooModel.is_model tupleTargetClass = .error .attributeError ∧
    PyFile.getModels ("f.py") [.classDef tupleTargetClass] =
      .error .attributeError :=
  ⟨rfl, rfl, rfl⟩

/-- C3 counterexample: a class literally named `BaseModel` with zero bases
whose body assigns `_name = "x"` is keyed `"f.py:BaseModel"` by the file
scanner, not by its bare class name. -/
theorem base_model_scanner_counterexample :
    (PyFile.getModels ("f.py") [.classDef namedBaseModelClass]).map
        (fun ms => ms.map Prod.fst) = .ok [("f.py:BaseModel")] ∧
    ("f.py:BaseModel" : String) ≠ ("BaseModel" : String) ∧
    namedBaseModelClass.name = ("BaseModel") ∧
    namedBaseModelClass.bases = [] :=
  ⟨rfl, by decide, rfl, rfl⟩

/-- C4 counterexample: a model with a non-empty `_order` string resolves
the `order` attribute to a truthy value, yet its serialized record has no
`order` entry. -/
theorem order_serialization_counterexample :
    (OdooModel.make orderedModelClass).map
        (fun m => (m.order.truthy, dictGet m.to_dict ("order"))) =
      .ok (true, Option.none) :=
  rfl

/-- C2 counterexample: a method whose name has a double leading underscore
but no trailing double underscore is not extracted, although it does not
match the dunder convention. -/
theorem methods_dunder_counterexample :
    OdooModel.getMethods leadingDunderClass = .ok [] ∧
    strStartsWith ("__compute_total") ("__") = true ∧
    strEndsWith ("__compute_total") ("__") = false :=
  ⟨rfl, by decide, by decide⟩

theorem exBind_ok {ε α β : Type} (a : α) (f : α → Except ε β) :
    (Except.ok a >>= f) = f a := rfl

theorem exBind_id {ε α : Type} (x : Except ε α) :
    (x >>= fun a => (Except.ok a : Except ε α)) = x := by
  cases x <;> rfl

/-- C3 (amended): a class literally named `BaseModel` with zero declared
bases always satisfies the base-class predicate, regardless of its body;
the file scanner stores it under the bare class name provided its body does
not classify it as a data model first and record extraction succeeds. -/
theorem base_model_classification (c : ClassDef)
    (hn : c.name = ("BaseModel")) (hb : c.bases = []) :
    OdooModel.is_base_class c = true ∧
    (∀ (path : String) (models : List (String × JVal)) (m : OdooModel),
      OdooModel.is_model c = .ok false →
      OdooModel.make c = .ok m →
      processTop path models (.classDef c) =
        .ok (dictSet models ("BaseModel") (.obj m.to_dict))) := by
  have hbase : OdooModel.is_base_class c = true := by
    unfold OdooModel.is_base_class classBases
    rw [hn, hb]
    rfl
  refine ⟨hbase, ?_⟩
  intro path models m hm hmk
  simp only [processTop]
  rw [hm, exBind_ok]
  simp only [Bool.false_eq_true, if_false, hbase, if_true, hmk, exBind_ok, hn]

theorem base_model_classification_witness :
    processTop ("f.py") [] (.classDef ⟨"BaseModel", [], []⟩) =
      .ok (dictSet [] ("BaseModel") (.obj emptyBaseModel.to_dict)) :=
  (base_model_classification ⟨"BaseModel", [], []⟩ rfl rfl).2
    ("f.py") [] emptyBaseModel rfl rfl

/-- C5: a class the scanner classifies as a data model is always inserted
under `"{path}:{className}"`; one it classifies as a base class is inserted
under the bare class name; and a second insertion under an existing key
overwrites the first (last write wins). -/
theorem scanner_key_rules :
    (∀ (path : String) (models : List (String × JVal)) (c : ClassDef)
        (m : OdooModel),
      OdooModel.is_model c = .ok true →
      OdooModel.make c = .ok m →
      processTop path models (.classDef c) =
        .ok (dictSet models (path ++ ":" ++ c.name) (.obj m.to_dict))) ∧
    (∀ (path : String) (models : List (String × JVal)) (c : ClassDef)
        (m : OdooModel),
      OdooModel.is_model c = .ok false →
      OdooModel.is_base_class c = true →
      OdooModel.make c = .ok m →
      processTop path models (.classDef c) =
        .ok (dictSet models c.name (.obj m.to_dict))) ∧
    (∀ (models : List (String × JVal)) (k : String) (v1 v2 : JVal),
      dictGet (dictSet (dictSet models k v1) k v2) k = some v2) := by
  refine ⟨?_, ?_, ?_⟩
  · intro path models c m hm hmk
    simp only [processTop]
    rw [hm, exBind_ok]
    simp only [if_true, hmk, exBind_ok]
  · intro path models c m hm hbase hmk
    simp only [processTop]
    rw [hm, exBind_ok]
    simp only [Bool.false_eq_true, if_false, hbase, if_true, hmk, exBind_ok]
  · intro models k v1 v2
    exact dictGet_dictSet_self _ k v2

theorem scanner_key_rules_witness :
    processTop ("f.py") [] (.classDef partnerClass) =
      .ok (dictSet [] ("f.py:Partner") (.obj partnerModel.to_dict)) :=
  scanner_key_rules.1 ("f.py") [] partnerClass partnerModel rfl rfl

/-- C10: a decorator whose expression is neither a bare name, an attribute
access nor a call is silently dropped from the extracted decorator list:
removing it from the decorator list leaves the extraction result (value or
exception) unchanged, so the recognized decorators around it are still
processed in order and no error or placeholder arises from it. -/
theorem unsupported_decorator_skipped (pre post : List Expr) (d : Expr)
    (hd : unsupportedDecoratorShape d = true) :
    OdooMethod.extractDecorators (pre ++ d :: post) =
      OdooMethod.extractDecorators (pre ++ post) := by
  have hskip : extractDecorator d = .ok Option.none := by
    cases d <;> first | rfl | simp [unsupportedDecoratorShape] at hd
  induction pre with
  | nil =>
    simp only [List.nil_append]
    simp only [OdooMethod.extractDecorators, hskip, exBind_ok]
    exact exBind_id (OdooMethod.extractDecorators post)
  | cons p rest ih =>
    simp only [List.cons_append]
    simp only [OdooMethod.extractDecorators]
    rw [ih]

theorem unsupported_decorator_skipped_witness :
    OdooMethod.extractDecorators
        [.name ("model"), .subscript (.name ("x")) (.constant (.int 0)),
         .attribute (.name ("api")) ("depends")] =
      .ok [("model"), ("api.depends")] :=
  (unsupported_decorator_skipped [.name ("model")]
      [.attribute (.name ("api")) ("depends")]
      (.subscript (.name ("x")) (.constant (.int 0))) rfl).trans rfl

theorem dictGet_nil {α : Type} (k : String) :
    dictGet ([] : List (String × α)) k = Option.none := rfl

theorem dictGet_cons {α : Type} (k1 k2 : String) (v : α)
    (rest : List (String × α)) :
    dictGet ((k1, v) :: rest) k2 =
      if k1 == k2 then some v else dictGet rest k2 := by
  by_cases h : (k1 == k2) = true
  · simp only [dictGet, List.find?_cons, h, if_pos h]
    simp
  · have h' : (k1 == k2) = false := by simpa using h
    simp only [dictGet, List.find?_cons, h', if_neg h]
    simp

theorem dictGet_ite_dictSet_ne {α : Type} (c : Prop) [Decidable c]
    (d : List (String × α)) (ki k : String) (v : α) (h : k ≠ ki) :
    dictGet (if c then dictSet d ki v else d) k = dictGet d k := by
  split_ifs with hc
  · exact dictGet_dictSet_ne d ki k v h
  · rfl

theorem dictGet_ite_dictSet_self {α : Type} (c : Prop) [Decidable c]
    (d : List (String × α)) (ki : String) (v : α) :
    dictGet (if c then dictSet d ki v else d) ki =
      if c then some v else dictGet d ki := by
  split_ifs with hc
  · exact dictGet_dictSet_self d ki v
  · rfl

theorem dictGet_ite_skip_dictSet_ne {α : Type} (c : Prop) [Decidable c]
    (d : List (String × α)) (ki k : String) (v : α) (h : k ≠ ki) :
    dictGet (if c then d else dictSet d ki v) k = dictGet d k := by
  split_ifs with hc
  · rfl
  · exact dictGet_dictSet_ne d ki k v h

theorem dictGet_ite_skip_dictSet_self {α : Type} (c : Prop) [Decidable c]
    (d : List (String × α)) (ki : String) (v : α) :
    dictGet (if c then d else dictSet d ki v) ki =
      if c then dictGet d ki else some v := by
  split_ifs with hc
  · rfl
  · exact dictGet_dictSet_self d ki v

/-- C4 (amended): the serialized record always contains the kind entry
(key `type`); contains `auto` exactly when the reader resolved `_auto` to a
value other than `None` (`False` included); contains each of `name`,
`inherit`, `inherits`, `fields` and `methods` exactly when that attribute
is truthy (non-empty); and never contains an `order` entry, although the
`order` attribute is extracted. -/
theorem model_serialization_rule (m : OdooModel) :
    dictGet m.to_dict ("type") = some (jopt m.type_) ∧
    dictGet m.to_dict ("auto") =
      (if m.auto.isNone then Option.none else some (.py m.auto)) ∧
    dictGet m.to_dict ("name") =
      (if m.name.truthy then some (.py m.name) else Option.none) ∧
    dictGet m.to_dict ("inherit") =
      (if m.inherit.truthy then some (.py m.inherit) else Option.none) ∧
    dictGet m.to_dict ("inherits") =
      (if m.inherits.truthy then some (.py m.inherits) else Option.none) ∧
    dictGet m.to_dict ("fields") =
      (if m.fields.isEmpty then Option.none else some (.obj m.fields)) ∧
    dictGet m.to_dict ("methods") =
      (if m.methods.isEmpty then Option.none else some (.obj m.methods)) ∧
    dictGet m.to_dict ("order") = Option.none := by
  refine ⟨?_, ?_, ?_, ?_, ?_, ?_, ?_, ?_⟩ <;>
  · simp only [OdooModel.to_dict]
    simp +decide only [dictGet_ite_dictSet_ne, dictGet_ite_dictSet_self,
      dictGet_ite_skip_dictSet_ne, dictGet_ite_skip_dictSet_self,
      dictGet_cons, dictGet_nil]
    split_ifs <;> simp_all

/-- C7: for a class-body assignment whose right-hand side is a call, the
field predicate holds exactly when the call target resolves (attribute
name for attribute access, identifier for a bare name) to a tag inside
`FIELD_TYPES`; the field collector skips such an assignment whenever the
tag is outside the set or the target has another shape, and records a
field exactly when the tag is accepted. -/
theorem field_record_rule :
    (∀ (targets : List Expr) (func : Expr) (args : List Expr)
        (kwargs : List (String × Expr)),
      targets ≠ [] →
      (OdooField.is_field (.assign targets (.call func args kwargs)) = true ↔
        ∃ t, funcTag func = some t ∧ t ∈ FIELD_TYPES)) ∧
    (∀ (acc : List (String × JVal)) (rest : List Stmt)
        (targets : List Expr) (func : Expr) (args : List Expr)
        (kwargs : List (String × Expr)),
      (∀ t, funcTag func = some t → t ∉ FIELD_TYPES) →
      OdooModel.getFieldsAux acc
          (.assign targets (.call func args kwargs) :: rest) =
        OdooModel.getFieldsAux acc rest) ∧
    (∀ (acc : List (String × JVal)) (rest : List Stmt) (id : String)
        (ts : List Expr) (func : Expr) (args : List Expr)
        (kwargs : List (String × Expr)) (t : String),
      funcTag func = some t → t ∈ FIELD_TYPES →
      OdooModel.getFieldsAux acc
          (.assign (.name id :: ts) (.call func args kwargs) :: rest) =
        OdooModel.getFieldsAux
          (dictSet acc id
            (.obj [(("name"), jstr id), (("type"), jstr t)])) rest) := by
  have hiff : ∀ (targets : List Expr) (func : Expr) (args : List Expr)
      (kwargs : List (String × Expr)), targets ≠ [] →
      (OdooField.is_field (.assign targets (.call func args kwargs)) = true ↔
        ∃ t, funcTag func = some t ∧ t ∈ FIELD_TYPES) := by
    intro targets func args kwargs ht
    have hne : targets.isEmpty = false := by
      cases targets with
      | nil => exact absurd rfl ht
      | cons a l => rfl
    simp only [OdooField.is_field, hne, Bool.false_eq_true, if_false]
    unfold OdooField.extractTypeOfCall
    cases hf : funcTag func with
    | none => simp
    | some t =>
        by_cases hmem : t ∈ FIELD_TYPES
        · have hc : FIELD_TYPES.contains t = true := List.elem_iff.mpr hmem
          simp only [hc, if_true, Option.isSome_some, true_iff]
          exact ⟨t, rfl, hmem⟩
        · have hc : FIELD_TYPES.contains t = false := by
            cases hx : FIELD_TYPES.contains t
            · rfl
            · exact absurd (List.elem_iff.mp hx) hmem
          simp only [hc, Bool.false_eq_true, if_false, Option.isSome_none,
            false_iff]
          rintro ⟨u, hu, hmu⟩
          rw [Option.some.injEq] at hu
          exact hmem (hu ▸ hmu)
  refine ⟨hiff, ?_, ?_⟩
  · intro acc rest targets func args kwargs hout
    have hff : OdooField.is_field (.assign targets (.call func args kwargs))
        = false := by
      cases targets with
      | nil => rfl
      | cons a l =>
          cases hb : OdooField.is_field (.assign (a :: l) (.call func args kwargs))
          · rfl
          · obtain ⟨t, hf, hmem⟩ :=
              (hiff (a :: l) func args kwargs (by simp)).mp hb
            exact absurd hmem (hout t hf)
    simp only [OdooModel.getFieldsAux, hff, Bool.false_eq_true, if_false]
  · intro acc rest id ts func args kwargs t hf hmem
    have hc : FIELD_TYPES.contains t = true := List.elem_iff.mpr hmem
    have htrue : OdooField.is_field
        (.assign (.name id :: ts) (.call func args kwargs)) = true :=
      (hiff (.name id :: ts) func args kwargs (by simp)).mpr ⟨t, hf, hmem⟩
    have hmake : OdooField.make
        (.assign (.name id :: ts) (.call func args kwargs)) =
          .ok ⟨id, some t⟩ := by
      simp only [OdooField.make, htrue, if_true, List.head?_cons, targetId,
        OdooField.extractType]
      unfold OdooField.extractTypeOfCall
      rw [hf]
      simp only [hc, if_true]
      rfl
    simp only [OdooModel.getFieldsAux, htrue, if_true, hmake, exBind_ok]
    rfl

theorem field_record_rule_witness :
    OdooField.is_field
      (.assign [.name ("partner_id")]
        (.call (.attribute (.name ("fields")) ("Many2one")) [] [])) = true :=
  (field_record_rule.1 [.name ("partner_id")]
      (.attribute (.name ("fields")) ("Many2one")) [] []
      (by simp)).mpr ⟨("Many2one"), rfl, by decide⟩

theorem exBind_err {ε α β : Type} (e : ε) (f : α → Except ε β) :
    (Except.error e >>= f) = .error e := rfl

theorem getMethodsAux_mem (body : List Stmt) :
    ∀ (acc ms : List (String × JVal)),
      OdooModel.getMethodsAux acc body = .ok ms →
      ∀ nm : String,
        ((dictGet ms nm).isSome = true ↔
          ((dictGet acc nm).isSome = true ∨
            ∃ args defaults decs,
              Stmt.functionDef nm args defaults decs ∈ body ∧
                strStartsWith nm ("__") = false)) := by
  induction body with
  | nil =>
    intro acc ms h nm
    simp only [OdooModel.getMethodsAux] at h
    rw [Except.ok.injEq] at h
    subst h
    simp
  | cons s rest ih =>
    intro acc ms h nm
    by_cases hm : OdooMethod.is_method s = true
    · cases s with
      | assign targets value => simp [OdooMethod.is_method] at hm
      | other => simp [OdooMethod.is_method] at hm
      | functionDef name args defaults decs =>
        have hsw : strStartsWith name ("__") = false := by
          simpa [OdooMethod.is_method] using hm
        simp only [OdooModel.getMethodsAux, hm, if_true] at h
        simp only [OdooMethod.make, hm, if_true] at h
        cases hd : OdooMethod.extractDecorators decs with
        | error e =>
            rw [hd] at h
            simp only [exBind_err] at h
            exact absurd h (by simp)
        | ok dl =>
            cases hs : OdooMethod.extractMethodSignature args defaults with
            | error e =>
                rw [hd] at h
                simp only [exBind_ok] at h
                rw [hs] at h
                simp only [exBind_err] at h
                exact absurd h (by simp)
            | ok sg =>
                rw [hd] at h
                simp only [exBind_ok] at h
                rw [hs] at h
                simp only [exBind_ok] at h
                rw [ih _ ms h nm, dictGet_dictSet]
                by_cases hnm : nm = name
                · subst hnm
                  simp only [if_pos rfl, Option.isSome_some]
                  constructor
                  · intro _
                    exact Or.inr ⟨args, defaults, decs, List.Mem.head _, hsw⟩
                  · intro _
                    exact Or.inl rfl
                · rw [if_neg hnm]
                  constructor
                  · rintro (hacc | ⟨a, d, dd, hmem, hswv⟩)
                    · exact Or.inl hacc
                    · exact Or.inr ⟨a, d, dd, List.mem_cons_of_mem _ hmem, hswv⟩
                  · rintro (hacc | ⟨a, d, dd, hmem, hswv⟩)
                    · exact Or.inl hacc
                    · rcases List.mem_cons.mp hmem with heq | hmemr
                      · injection heq with h1 h2 h3 h4
                        exact absurd h1 hnm
                      · exact Or.inr ⟨a, d, dd, hmemr, hswv⟩
    · have hm' : OdooMethod.is_method s = false := by simpa using hm
      simp only [OdooModel.getMethodsAux, hm', Bool.false_eq_true, if_false]
        at h
      rw [ih acc ms h nm]
      constructor
      · rintro (hacc | ⟨a, d, dd, hmem, hswv⟩)
        · exact Or.inl hacc
        · exact Or.inr ⟨a, d, dd, List.mem_cons_of_mem _ hmem, hswv⟩
      · rintro (hacc | ⟨a, d, dd, hmem, hswv⟩)
        · exact Or.inl hacc
        · rcases List.mem_cons.mp hmem with heq | hmemr
          · rw [← heq] at hm'
            simp [OdooMethod.is_method, hswv] at hm'
          · exact Or.inr ⟨a, d, dd, hmemr, hswv⟩

/-- C2 (amended): when method extraction succeeds, the methods mapping has
an entry named `nm` exactly when the class body declares a function named
`nm` whose name does not start with a double leading underscore; names
starting with `__` are never extracted, whether or not they also end with
`__`. -/
theorem methods_extraction_rule (c : ClassDef) (ms : List (String × JVal))
    (h : OdooModel.getMethods c = .ok ms) (nm : String) :
    (dictGet ms nm).isSome = true ↔
      ∃ args defaults decs,
        Stmt.functionDef nm args defaults decs ∈ c.body ∧
          strStartsWith nm ("__") = false := by
  have := getMethodsAux_mem c.body [] ms h nm
  simpa [dictGet] using this

theorem methods_extraction_rule_witness :
    (dictGet [(("_compute"),
        JVal.obj [(("name"), jstr ("_compute")),
          (("signature"), JVal.strs [("self")])])]
      ("_compute")).isSome = true :=
  (methods_extraction_rule methodClass
      [(("_compute"),
        JVal.obj [(("name"), jstr ("_compute")),
          (("signature"), JVal.strs [("self")])])]
      rfl ("_compute")).mpr
    ⟨[("self")], [], [], List.Mem.head _, by decide⟩

theorem matchTargets_skip (attrName : String) (value : Expr) :
    ∀ targets : List Expr,
      targets.all
        (fun t =>
          match t with
          | Expr.name _ => true
          | _ => false) = true →
      (targets.any
          (fun t =>
            match t with
            | Expr.name id => id == attrName
            | _ => false) = false ∨
        recognizedLiteral value = false) →
      matchTargets attrName value targets = .ok Option.none := by
  intro targets
  induction targets with
  | nil => intro _ _; rfl
  | cons t rest ih =>
    intro hall hdis
    cases t
    case name id =>
      rw [List.all_cons] at hall
      have htrest : rest.all
          (fun t =>
            match t with
            | Expr.name _ => true
            | _ => false) = true := by
        simpa using hall
      simp only [matchTargets, targetId]
      by_cases hid : id = attrName
      · rw [if_pos hid]
        have hvr : recognizedLiteral value = false := by
          cases hdis with
          | inl hany =>
              exfalso
              rw [List.any_cons] at hany
              have hidb : (id == attrName) = true := beq_iff_eq.mpr hid
              simp [hidb] at hany
          | inr h => exact h
        have hmv : matchedValue value = Option.none := by
          cases value <;> first | rfl | (simp [recognizedLiteral] at hvr)
        simp only [hmv]
        exact ih htrest (Or.inr hvr)
      · rw [if_neg hid]
        apply ih htrest
        cases hdis with
        | inl hany =>
            left
            rw [List.any_cons, Bool.or_eq_false_iff] at hany
            exact hany.2
        | inr hv => exact Or.inr hv
    all_goals simp [List.all_cons] at hall

theorem getAttrAux_graceful (attrName : String) :
    ∀ body : List Stmt, allNameTargets body = true →
      noLiteralAssignTo attrName body = true →
      getAttrAux attrName body = .ok (.const .none) := by
  intro body
  induction body with
  | nil => intro _ _; rfl
  | cons s rest ih =>
    intro h1 h2
    simp only [allNameTargets, List.all_cons, Bool.and_eq_true] at h1
    simp only [noLiteralAssignTo, List.all_cons, Bool.and_eq_true] at h2
    cases s with
    | assign targets value =>
        simp only [getAttrAux]
        by_cases he : targets.isEmpty = true
        · rw [if_pos he]
          exact ih h1.2 h2.2
        · rw [if_neg he]
          have hmt : matchTargets attrName value targets = .ok Option.none := by
            apply matchTargets_skip attrName value targets h1.1
            have h2s := h2.1
            simp only [assignsTo, Bool.or_eq_true, Bool.not_eq_true'] at h2s
            exact h2s
          simp only [hmt]
          exact ih h1.2 h2.2
    | functionDef name args defaults decs =>
        simp only [getAttrAux]
        exact ih h1.2 h2.2
    | other =>
        simp only [getAttrAux]
        exact ih h1.2 h2.2

/-- C8: when every assignment target in the class body is a bare name and
every assignment targeting the attribute carries a value shape outside the
recognized literal forms (calls, name references, f-strings, operators,
comprehension-like shapes, ...), the attribute reader returns the absent
value (`None`) instead of raising. -/
theorem attr_reader_graceful (c : ClassDef) (attrName : String)
    (h1 : allNameTargets c.body = true)
    (h2 : noLiteralAssignTo attrName c.body = true) :
    OdooModel.getAttrValue c attrName = .ok (.const .none) :=
  getAttrAux_graceful attrName c.body h1 h2

theorem attr_reader_graceful_witness :
    OdooModel.getAttrValue gracefulClass ("_name") = .ok (.const .none) :=
  attr_reader_graceful gracefulClass ("_name") (by decide) (by decide)

theorem take_set_of_le {α : Type} (l : List α) (j t : Nat) (a : α)
    (h : t ≤ j) :
    (l.set j a).take t = l.take t := by
  apply List.ext_getElem?
  intro m
  rw [List.getElem?_take, List.getElem?_take]
  by_cases hm : m < t
  · rw [if_pos hm, if_pos hm, List.getElem?_set, if_neg (by omega)]
  · rw [if_neg hm, if_neg hm]

theorem take_drop_set {α : Type} (l : List α) (t s j : Nat) (a : α)
    (h : t + s ≤ j) :
    ((l.set j a).drop t).take s = (l.drop t).take s := by
  apply List.ext_getElem?
  intro m
  rw [List.getElem?_take, List.getElem?_take]
  by_cases hm : m < s
  · rw [if_pos hm, if_pos hm, List.getElem?_drop, List.getElem?_drop,
      List.getElem?_set, if_neg (by omega)]
  · rw [if_neg hm, if_neg hm]

theorem drop_set_self {α : Type} (l : List α) (j : Nat) (a : α)
    (h : j < l.length) :
    (l.set j a).drop j = a :: l.drop (j + 1) := by
  rw [List.drop_set, if_neg (by omega), Nat.sub_self,
    List.drop_eq_getElem_cons h, List.set_cons_zero]

theorem renderDefaults_length :
    ∀ (ds : List Expr) (rs : List String),
      renderDefaults ds = .ok rs → rs.length = ds.length := by
  intro ds
  induction ds with
  | nil =>
    intro rs h
    simp only [renderDefaults] at h
    rw [Except.ok.injEq] at h
    subst h
    rfl
  | cons d rest ih =>
    intro rs h
    simp only [renderDefaults] at h
    cases hs : ast_to_string d with
    | error e =>
        rw [hs] at h
        simp only [exBind_err] at h
        exact absurd h (by simp)
    | ok s =>
        rw [hs] at h
        simp only [exBind_ok] at h
        cases hrest : renderDefaults rest with
        | error e =>
            rw [hrest] at h
            simp only [exBind_err] at h
            exact absurd h (by simp)
        | ok rs2 =>
            rw [hrest] at h
            simp only [exBind_ok] at h
            rw [Except.ok.injEq] at h
            subst h
            simp [ih rs2 hrest]

theorem alignLoop_spec :
    ∀ (revd : List String) (sig : List String) (i : Nat),
      i + revd.length ≤ sig.length →
      alignLoop sig i revd = .ok
        (sig.take (sig.length - i - revd.length) ++
          List.zipWith (fun a d => a ++ "=" ++ d)
            ((sig.drop (sig.length - i - revd.length)).take revd.length)
            revd.reverse ++
          sig.drop (sig.length - i)) := by
  intro revd
  induction revd with
  | nil =>
    intro sig i h
    simp only [alignLoop, List.length_nil, Nat.sub_zero, List.take_zero,
      List.reverse_nil, List.zipWith_nil_right, List.nil_append,
      List.append_nil]
    rw [List.take_append_drop]
  | cons d ds ih =>
    intro sig i h
    simp only [List.length_cons] at h
    have hi : i < sig.length := by omega
    have hidx : sig.length - 1 - i < sig.length := by omega
    simp only [alignLoop, if_pos hi]
    rw [ih _ (i + 1) (by rw [List.length_set]; omega)]
    rw [Except.ok.injEq]
    simp only [List.length_set, List.length_cons, List.reverse_cons]
    rw [show sig.length - (i + 1) - ds.length =
        sig.length - i - (ds.length + 1) from by omega]
    rw [show sig.length - (i + 1) = sig.length - 1 - i from by omega]
    rw [take_set_of_le _ _ _ _ (by omega)]
    rw [take_drop_set _ _ _ _ _ (by omega)]
    rw [drop_set_self _ _ _ hidx]
    rw [show sig.length - 1 - i + 1 = sig.length - i from by omega]
    rw [List.take_succ, List.getElem?_drop]
    rw [show sig.length - i - (ds.length + 1) + ds.length =
        sig.length - 1 - i from by omega]
    rw [List.getElem?_eq_getElem hidx]
    have hleneq : ((sig.drop (sig.length - i - (ds.length + 1))).take
        ds.length).length = ds.reverse.length := by
      rw [List.length_take, List.length_drop, List.length_reverse]
      omega
    rw [List.zipWith_append _ _ _ _ _ hleneq]
    rw [List.getD_eq_getElem?_getD, List.getElem?_eq_getElem hidx]
    simp [List.append_assoc]

/-- C6: for `n` positional parameters and `k ≤ n` rendered default
expressions, the extracted signature keeps the first `n − k` parameter
names bare and renders the last `k`, in declaration order, as
`name=renderedDefault`. -/
theorem signature_default_alignment (args : List String)
    (defaults : List Expr) (rendered : List String)
    (hk : defaults.length ≤ args.length)
    (hr : renderDefaults defaults = .ok rendered) :
    OdooMethod.extractMethodSignature args defaults =
      .ok (args.take (args.length - defaults.length) ++
        List.zipWith (fun a d => a ++ "=" ++ d)
          (args.drop (args.length - defaults.length)) rendered) := by
  have hlen : rendered.length = defaults.length :=
    renderDefaults_length defaults rendered hr
  simp only [OdooMethod.extractMethodSignature]
  rw [hr]
  simp only [exBind_ok]
  rw [alignLoop_spec rendered.reverse args 0
    (by rw [List.length_reverse]; omega)]
  rw [Except.ok.injEq]
  simp only [List.length_reverse, List.reverse_reverse, Nat.sub_zero]
  rw [List.drop_length, List.append_nil, hlen]
  congr 1
  congr 1
  apply List.take_of_length_le
  rw [List.length_drop]
  omega

theorem signature_default_alignment_witness :
    OdooMethod.extractMethodSignature [("self"), ("a"), ("b")]
        [.constant (.int 1), .name ("x")] =
      .ok [("self"), ("a=1"), ("b=x")] :=
  (signature_default_alignment [("self"), ("a"), ("b")]
      [.constant (.int 1), .name ("x")] [("1"), ("x")]
      (by decide) rfl).trans rfl
